import Mathlib

/-!
Shallow embedding of `src/index.ts` (rxState): a minimal reactive state
container built on rxjs.  States are JavaScript-like objects, modelled as
association lists of fields holding `JSVal` values.  The rxjs operator
pipeline (`scan`, `shareReplay(1)`, `pluck`, `distinctUntilChanged`,
`filter`) is modelled denotationally: an observable is the list of values a
subscriber receives, as a function of the submitted updates and of the
instants at which a derived chain is created and at which the subscriber
attaches.  The stream primitive itself (rxjs) is an external collaborator of
the repository; its multicast / replay-last / operator semantics are
modelled from the specification's boundary contract (spec sections 1, 4, 6),
while everything the repository's own code decides (the scan accumulator,
shallow merge, the duck-typed function check, the pluck path, the filter
predicate, the order of the operators, the absence of a per-path cache in
`getState`) is translated directly from the source.
-/

namespace RxState

/-- A JavaScript value, as far as the container can observe it.  Objects
carry an identity `id` modelling their reference, which is what `===` (and
hence rxjs `distinctUntilChanged`) compares them by. -/
inductive JSVal where
  | vundefined : JSVal
  | vnull : JSVal
  | vbool : Bool → JSVal
  | vnum : Int → JSVal
  | vstr : String → JSVal
  | vobj : Nat → List (String × JSVal) → JSVal

/-- A state object of shape `T`: a record of named top-level fields. -/
abbrev JSRecord := List (String × JSVal)

/-- Field access on a record: the first binding of the key, if any. -/
def getField : JSRecord → String → Option JSVal
  | [], _ => none
  | (k, v) :: r, key => if k == key then some v else getField r key

/-- JavaScript truthiness (`Boolean(x)`). -/
def truthy : JSVal → Bool
  | .vundefined => false
  | .vnull => false
  | .vbool b => b
  | .vnum n => !(n == 0)
  | .vstr s => !(s == "")
  | .vobj _ _ => true

/-- JavaScript strict equality `===`: structural on primitives, reference
identity on objects.  This is the comparison `distinctUntilChanged` uses. -/
def jsEq : JSVal → JSVal → Bool
  | .vundefined, .vundefined => true
  | .vnull, .vnull => true
  | .vbool a, .vbool b => a == b
  | .vnum a, .vnum b => a == b
  | .vstr a, .vstr b => a == b
  | .vobj i _, .vobj j _ => i == j
  | _, _ => false

/-- Whether a record has a binding for a key (`key in obj`). -/
def containsKey (r : JSRecord) (k : String) : Bool :=
  (getField r k).isSome

/-- The spread merge `{...state, ...update}` from the `scan` accumulator at
src/index.ts lines 63-69: every top-level field of the partial overwrites
the corresponding field of the state, fields not mentioned are kept, and
new fields of the partial are appended in their own order. -/
def shallowMerge (s p : JSRecord) : JSRecord :=
  s.map (fun kv =>
    match getField p kv.1 with
    | some v => (kv.1, v)
    | none => kv)
  ++ p.filter (fun kv => !(containsKey s kv.1))

/-- An update submitted through `setState`: a partial record, or a function
of the current state.  A function that throws is modelled as returning
`none` (the thrown error aborts the update). -/
inductive Update where
  | part : JSRecord → Update
  | fn : (JSRecord → Option JSRecord) → Update

/-- The duck-typed check `Boolean((update as Function).apply)` at
src/index.ts lines 49-51: every function value has the (truthy)
`Function.prototype.apply`, while a plain partial is classified as a
function exactly when it happens to carry a truthy field named `apply`. -/
def isFunction : Update → Bool
  | .fn _ => true
  | .part p =>
    match getField p "apply" with
    | some v => truthy v
    | none => false

/-- The resolution `isFunction(update) ? update(state) : update` inside the
`scan` accumulator.  `none` models a thrown error: either the update
function itself threw, or a partial carrying a truthy `apply` field was
misclassified as a function and calling it raised a TypeError. -/
def resolve (u : Update) (s : JSRecord) : Option JSRecord :=
  if isFunction u then
    match u with
    | .fn f => f s
    | .part _ => none
  else
    match u with
    | .part p => some p
    | .fn _ => none

/-- One step of the fold held by `scan`: on success the shallow merge of the
resolved partial into the state; a throwing update leaves the state
unchanged (it publishes nothing, per spec section 7). -/
def stepState (s : JSRecord) (u : Update) : JSRecord :=
  match resolve u s with
  | some p => shallowMerge s p
  | none => s

/-- Modelled from the spec: the published snapshot sequence of `state$`
(src/index.ts lines 61-72).  rxjs `scan` emits one merged state per incoming
update and does not emit its seed; the multicast fan-out of the Subject is
taken to be live from construction (spec section 5's synchronous dispatch
model).  A throwing update publishes no snapshot and leaves the running
state unchanged (spec section 7). -/
def snapshotsFrom (s : JSRecord) : List Update → List JSRecord
  | [] => []
  | u :: us =>
    match resolve u s with
    | some p => shallowMerge s p :: snapshotsFrom (shallowMerge s p) us
    | none => snapshotsFrom s us

/-- The state current after a list of updates (throwing updates skipped). -/
def stateAfter (init : JSRecord) (us : List Update) : JSRecord :=
  us.foldl stepState init

/-- Whether a `setState` call with update `u` against current state `s`
throws out of the synchronous dispatch (spec section 7: the reducer does not
catch errors from the update resolution). -/
def setStateThrows (s : JSRecord) (u : Update) : Bool :=
  (resolve u s).isNone

/-- Modelled from the spec: the single value `shareReplay(1)` on `state$`
replays to a chain or observer that attaches after the first `k` updates —
the most recently published snapshot, if any (spec sections 4.1 and 6:
replay-last-value-to-late-subscribers). -/
def replayAt (init : JSRecord) (us : List Update) (k : Nat) : List JSRecord :=
  (snapshotsFrom init (us.take k)).getLast?.toList

/-- The snapshots published strictly after instant `k` and up to instant
`j`, where instant `i` is the point just after the `i`-th `setState` call. -/
def snapsBetween (init : JSRecord) (us : List Update) (k j : Nat) : List JSRecord :=
  snapshotsFrom (stateAfter init (us.take k)) ((us.take j).drop k)

/-- The full-state snapshots an observer of `state$` receives when it
subscribes at instant `k`: the replayed latest snapshot, if any, followed by
every snapshot published afterwards, in publication order. -/
def observeFull (init : JSRecord) (us : List Update) (k : Nat) : List JSRecord :=
  replayAt init us k ++ snapshotsFrom (stateAfter init (us.take k)) (us.drop k)

/-- Modelled from the spec: one step of property access in rxjs `pluck` —
reading a field of a non-object, or a missing field, yields `undefined`
(spec section 4.2 step 1: an absent segment makes the candidate absent). -/
def childOf : JSVal → String → JSVal
  | .vobj _ fs, k =>
    match getField fs k with
    | some v => v
    | none => .vundefined
  | _, _ => .vundefined

/-- Modelled from the spec: the extraction `pluck<T, R>(...path)` applied to
one state snapshot (src/index.ts line 78): navigate the path segments in
order, yielding `undefined` as soon as a segment is absent.  `getState`
only plucks non-empty paths; the empty case is arbitrary. -/
def pluckRecord (r : JSRecord) : List String → JSVal
  | [] => .vundefined
  | k :: ks =>
    ks.foldl childOf
      (match getField r k with
        | some v => v
        | none => .vundefined)

/-- The predicate of the `filter` stage (src/index.ts line 80):
`value !== null && value !== undefined`. -/
def passesAbsence : JSVal → Bool
  | .vnull => false
  | .vundefined => false
  | _ => true

/-- Modelled from the spec: rxjs `distinctUntilChanged()` with its default
`===` comparison, after the first forwarded value (the stored key is the
last forwarded value; a candidate equal to it is suppressed). -/
def distinctGo (key : JSVal) : List JSVal → List JSVal
  | [] => []
  | c :: cs => if jsEq c key then distinctGo key cs else c :: distinctGo c cs

/-- Modelled from the spec: rxjs `distinctUntilChanged()` over a whole
candidate sequence; the first candidate is always forwarded. -/
def distinctUntil : List JSVal → List JSVal
  | [] => []
  | c :: cs => c :: distinctGo c cs

/-- The value pipeline of a non-empty-path view, exactly in the source's
operator order (src/index.ts lines 77-82): `distinctUntilChanged()` first,
then `filter(value !== null && value !== undefined)`. -/
def pathPipeline (cs : List JSVal) : List JSVal :=
  (distinctUntil cs).filter passesAbsence

/-- The full-state snapshots fed to a path-view chain created at instant
`kc`, up to instant `j`: the snapshot `shareReplay(1)` replays to the chain
when it subscribes to `state$`, followed by the snapshots published while
the chain is live. -/
def chainIn (init : JSRecord) (us : List Update) (kc j : Nat) : List JSRecord :=
  replayAt init us kc ++ snapsBetween init us kc j

/-- The values a non-empty-path view chain created at instant `kc` has
emitted by instant `j`: its inputs plucked at `path`, deduplicated and
filtered in the source's operator order. -/
def chainOut (init : JSRecord) (us : List Update) (path : List String)
    (kc j : Nat) : List JSVal :=
  pathPipeline ((chainIn init us kc j).map (fun r => pluckRecord r path))

/-- The values received by a subscriber that attaches at instant `ks` to a
non-empty-path view chain created at instant `kc`: the chain's own
`shareReplay(1)` replays its latest output so far, then the subscriber sees
every later output of the chain. -/
def subscribeView (init : JSRecord) (us : List Update) (path : List String)
    (kc ks : Nat) : List JSVal :=
  (chainOut init us path kc ks).getLast?.toList
    ++ (chainOut init us path kc us.length).drop
        (chainOut init us path kc ks).length

/-- A full state snapshot seen as a `StateValue` emission (the source types
`getState`'s result as `Observable<R>` with `StateValue = T[keyof T] | T`).
The wrapper object id is irrelevant: empty-path emissions never reach a
`===` comparison. -/
def asStateValue (r : JSRecord) : JSVal :=
  .vobj 0 r

/-- The emissions of `getState(...path)` (src/index.ts lines 75-84) for a
subscriber at instant `ks`, the view chain — a fresh one per call — having
been created at instant `kc`: `Boolean(path.length)` selects between the
piped non-empty-path view and `state$` itself. -/
def getState (init : JSRecord) (us : List Update) (path : List String)
    (kc ks : Nat) : List JSVal :=
  if path.length != 0 then
    subscribeView init us path kc ks
  else
    (observeFull init us ks).map asStateValue

/-- An adjacent-deduplication pass: a candidate is suppressed exactly when
it is `===`-equal to the immediately preceding candidate, forwarded or not;
`prev` is that preceding candidate. -/
def adjGo (prev : JSVal) : List JSVal → List JSVal
  | [] => []
  | c :: cs => if jsEq c prev then adjGo c cs else c :: adjGo c cs

/-- Adjacent deduplication of a candidate sequence: the first candidate
always passes, every later one is suppressed exactly when `===`-equal to
its immediate predecessor in the candidate sequence. -/
def adjDedup : List JSVal → List JSVal
  | [] => []
  | c :: cs => c :: adjGo c cs

/-- The suppression rule exactly as claim C4 words it, for comparison with
the source pipeline: a candidate is suppressed when `===`-equal to the
immediately preceding value actually emitted to observers, candidates
removed by the absence filter do not count as that preceding emitted value,
and the very first candidate always passes the distinct stage. -/
def claimC4Go (lastEmitted : Option JSVal) : List JSVal → List JSVal
  | [] => []
  | c :: cs =>
    match lastEmitted with
    | some v =>
      if jsEq c v then claimC4Go (some v) cs
      else if passesAbsence c then c :: claimC4Go (some c) cs
      else claimC4Go (some v) cs
    | none =>
      if passesAbsence c then c :: claimC4Go (some c) cs
      else claimC4Go none cs

/-- The emissions claim C4 predicts for a candidate sequence. -/
def claimC4Emit (cs : List JSVal) : List JSVal :=
  claimC4Go none cs

/-- An update that never throws when processed: a function that returns on
every state, or a partial that the duck-typed check does not misclassify as
a function. -/
def neverThrows : Update → Prop
  | .part p => isFunction (.part p) = false
  | .fn f => ∀ s, (f s).isSome

/-! Concrete scenarios used as inputs of counterexamples and witnesses. -/

/-- Initial state `{v: 0}`. -/
def cV0 : JSRecord := [("v", JSVal.vnum 0)]

/-- One plain update `{v: 1}`. -/
def cUsV1 : List Update := [Update.part [("v", JSVal.vnum 1)]]

/-- Three plain updates setting `v` to 1, 2, 3. -/
def cUsV123 : List Update :=
  [Update.part [("v", JSVal.vnum 1)], Update.part [("v", JSVal.vnum 2)],
    Update.part [("v", JSVal.vnum 3)]]

/-- A function update incrementing `v`, total on every state. -/
def cIncr : Update :=
  .fn (fun s => some [("v",
    match getField s "v" with
    | some (JSVal.vnum n) => JSVal.vnum (n + 1)
    | _ => JSVal.vnum 0)])

/-- A plain update followed by the increment function update. -/
def cUsFold : List Update := [Update.part [("v", JSVal.vnum 1)], cIncr]

/-- A function update that always throws. -/
def cThrow : Update := .fn (fun _ => none)

/-- Initial state `{a: 1}`. -/
def cA1 : JSRecord := [("a", JSVal.vnum 1)]

/-- Updates `{a: 5}` then `{a: null}`. -/
def cUsA5N : List Update :=
  [Update.part [("a", JSVal.vnum 5)], Update.part [("a", JSVal.vnull)]]

/-- Updates `{a: 5}`, `{a: null}`, `{a: 5}`. -/
def cUsA5N5 : List Update :=
  [Update.part [("a", JSVal.vnum 5)], Update.part [("a", JSVal.vnull)],
    Update.part [("a", JSVal.vnum 5)]]

/-- The spec's shallow-merge example initial state `{a: {x: 1}, b: 2}`;
object ids model the distinct references of the two nested literals. -/
def cMergeInit : JSRecord :=
  [("a", JSVal.vobj 1 [("x", JSVal.vnum 1)]), ("b", JSVal.vnum 2)]

/-- The spec's partial update `{a: {y: 2}}`. -/
def cMergePatch : JSRecord :=
  [("a", JSVal.vobj 2 [("y", JSVal.vnum 2)])]

/-- The expected merged state `{a: {y: 2}, b: 2}`: the `a` field now holds
the reference from the patch (`x` is lost), `b` is retained. -/
def cMergeOut : JSRecord :=
  [("a", JSVal.vobj 2 [("y", JSVal.vnum 2)]), ("b", JSVal.vnum 2)]

/-- Two logically no-op updates `{}`. -/
def cUsNoop : List Update := [Update.part [], Update.part []]

/-! Helper lemmas about the embedding. -/

theorem stateAfter_cons (init : JSRecord) (u : Update) (us : List Update) :
    stateAfter init (u :: us) = stateAfter (stepState init u) us := rfl

theorem snapshotsFrom_cons_none {u : Update} {s : JSRecord} (h : resolve u s = none)
    (us : List Update) : snapshotsFrom s (u :: us) = snapshotsFrom s us := by
  simp [snapshotsFrom, h]

theorem snapshotsFrom_cons_some {u : Update} {s p : JSRecord} (h : resolve u s = some p)
    (us : List Update) :
    snapshotsFrom s (u :: us)
      = shallowMerge s p :: snapshotsFrom (shallowMerge s p) us := by
  simp [snapshotsFrom, h]

theorem stepState_none {u : Update} {s : JSRecord} (h : resolve u s = none) :
    stepState s u = s := by
  simp [stepState, h]

theorem stepState_some {u : Update} {s p : JSRecord} (h : resolve u s = some p) :
    stepState s u = shallowMerge s p := by
  simp [stepState, h]

/-- Publishing decomposes over concatenation of update batches. -/
theorem snapshotsFrom_append (l1 l2 : List Update) (init : JSRecord) :
    snapshotsFrom init (l1 ++ l2)
      = snapshotsFrom init l1 ++ snapshotsFrom (stateAfter init l1) l2 := by
  induction l1 generalizing init with
  | nil => rfl
  | cons u l1 ih =>
    rw [List.cons_append]
    rcases hr : resolve u init with _ | p
    · rw [snapshotsFrom_cons_none hr, snapshotsFrom_cons_none hr, ih,
        stateAfter_cons, stepState_none hr]
    · rw [snapshotsFrom_cons_some hr, snapshotsFrom_cons_some hr, ih,
        stateAfter_cons, stepState_some hr, List.cons_append]

/-- Dropping up to the last element of a chunk keeps that element and the
rest: the shape of a replay-then-live emission sequence. -/
theorem drop_pred_length_append {α : Type} (l rest : List α) :
    (l ++ rest).drop (l.length - 1) = l.getLast?.toList ++ rest := by
  induction l with
  | nil => rfl
  | cons x l ih =>
    cases l with
    | nil => rfl
    | cons y l2 =>
      rw [List.cons_append, List.length_cons,
        show (y :: l2).length + 1 - 1 = l2.length + 1 from rfl,
        List.drop_succ_cons,
        show l2.length = (y :: l2).length - 1 from rfl,
        ih, List.getLast?_cons_cons]

theorem mem_of_mem_distinctGo {x : JSVal} {cs : List JSVal} :
    ∀ {key : JSVal}, x ∈ distinctGo key cs → x ∈ cs := by
  induction cs with
  | nil => intro key h; exact h
  | cons c cs ih =>
    intro key h
    by_cases hc : jsEq c key = true
    · simp only [distinctGo, if_pos hc] at h
      exact List.mem_cons_of_mem _ (ih h)
    · simp only [distinctGo, if_neg hc] at h
      rcases List.mem_cons.mp h with h1 | h2
      · exact h1 ▸ List.mem_cons_self c cs
      · exact List.mem_cons_of_mem _ (ih h2)

theorem mem_of_mem_distinctUntil {x : JSVal} {cs : List JSVal}
    (h : x ∈ distinctUntil cs) : x ∈ cs := by
  cases cs with
  | nil => exact h
  | cons c cs =>
    simp only [distinctUntil] at h
    rcases List.mem_cons.mp h with h1 | h2
    · exact h1 ▸ List.mem_cons_self c cs
    · exact List.mem_cons_of_mem _ (mem_of_mem_distinctGo h2)

/-- When every candidate is absent, the non-empty-path pipeline emits
nothing. -/
theorem pathPipeline_eq_nil {cs : List JSVal}
    (h : ∀ c ∈ cs, passesAbsence c = false) : pathPipeline cs = [] := by
  unfold pathPipeline
  rw [List.filter_eq_nil_iff]
  intro a ha
  have := h a (mem_of_mem_distinctUntil ha)
  simp [this]

/-- Strict equality respects itself: values `===`-equal to each other
compare identically against every third value. -/
theorem jsEq_congr {a b : JSVal} (h : jsEq a b = true) (x : JSVal) :
    jsEq x a = jsEq x b := by
  cases a <;> cases b <;> cases x <;> simp_all [jsEq]

theorem adjGo_congr {a b : JSVal} (h : ∀ x, jsEq x a = jsEq x b)
    (cs : List JSVal) : adjGo a cs = adjGo b cs := by
  cases cs with
  | nil => rfl
  | cons c cs => simp only [adjGo, h c]

/-- The stored key of `distinctUntilChanged` (the last forwarded value) is
interchangeable with the immediately preceding candidate: the two
deduplication disciplines agree. -/
theorem distinctGo_eq_adjGo (cs : List JSVal) :
    ∀ key, distinctGo key cs = adjGo key cs := by
  induction cs with
  | nil => intro key; rfl
  | cons c cs ih =>
    intro key
    by_cases hc : jsEq c key = true
    · simp only [distinctGo, adjGo, if_pos hc]
      rw [ih key]
      exact adjGo_congr (fun x => (jsEq_congr hc x).symm) cs
    · simp only [distinctGo, adjGo, if_neg hc]
      rw [ih c]

theorem distinctUntil_eq_adjDedup (cs : List JSVal) :
    distinctUntil cs = adjDedup cs := by
  cases cs with
  | nil => rfl
  | cons c cs =>
    simp only [distinctUntil, adjDedup]
    rw [distinctGo_eq_adjGo cs c]

theorem getField_append (l1 l2 : JSRecord) (k : String) :
    getField (l1 ++ l2) k
      = match getField l1 k with
        | some v => some v
        | none => getField l2 k := by
  induction l1 with
  | nil => rfl
  | cons kv l1 ih =>
    obtain ⟨k0, v0⟩ := kv
    by_cases h : (k0 == k) = true
    · simp only [List.cons_append, getField, if_pos h]
    · simp only [List.cons_append, getField, if_neg h]
      exact ih

theorem getField_mapOverride (s p : JSRecord) (k : String) :
    getField (s.map (fun kv =>
      match getField p kv.1 with
      | some v => (kv.1, v)
      | none => kv)) k
      = (getField s k).map (fun v0 =>
          match getField p k with
          | some v => v
          | none => v0) := by
  induction s with
  | nil => rfl
  | cons kv s ih =>
    obtain ⟨k0, v0⟩ := kv
    by_cases h : (k0 == k) = true
    · have hk : k0 = k := by simpa using h
      subst hk
      cases hp : getField p k0 <;> simp [getField, hp]
    · cases hp : getField p k0 <;> simp [getField, hp, h, ih]

theorem getField_filterKeys (s p : JSRecord) (k : String)
    (h : containsKey s k = false) :
    getField (p.filter (fun kv => !(containsKey s kv.1))) k = getField p k := by
  induction p with
  | nil => rfl
  | cons kv p ih =>
    obtain ⟨k0, v0⟩ := kv
    by_cases hk : (k0 == k) = true
    · have : k0 = k := by simpa using hk
      subst this
      simp [List.filter_cons, h, getField]
    · by_cases hpred : (!(containsKey s k0)) = true
      · simp [List.filter_cons, hpred, getField, hk, ih]
      · simp [List.filter_cons, hpred, getField, hk, ih]

/-- Field lookup after the spread merge: fields present in the partial win,
fields absent from the partial fall back to the state. -/
theorem getField_shallowMerge (s p : JSRecord) (k : String) :
    getField (shallowMerge s p) k
      = match getField p k with
        | some v => some v
        | none => getField s k := by
  unfold shallowMerge
  rw [getField_append, getField_mapOverride]
  rcases hs : getField s k with _ | v0
  · have hc : containsKey s k = false := by simp [containsKey, hs]
    rw [getField_filterKeys s p k hc]
    cases hp : getField p k <;> simp [hp]
  · cases hp : getField p k <;> simp [hp]

theorem resolve_eq_some_of_neverThrows {u : Update} (h : neverThrows u)
    (s : JSRecord) : ∃ p, resolve u s = some p := by
  cases u with
  | part p =>
    have h2 : isFunction (Update.part p) = false := h
    exact ⟨p, by simp [resolve, h2]⟩
  | fn f =>
    rcases Option.isSome_iff_exists.mp (h s) with ⟨p, hp⟩
    exact ⟨p, by simp [resolve, isFunction, hp]⟩

theorem snapshots_length (us : List Update) :
    ∀ init : JSRecord, (∀ u ∈ us, neverThrows u) →
      (snapshotsFrom init us).length = us.length := by
  induction us with
  | nil => intro init h; rfl
  | cons u us ih =>
    intro init h
    rcases resolve_eq_some_of_neverThrows (h u (List.mem_cons_self u us)) init
      with ⟨p, hp⟩
    rw [snapshotsFrom_cons_some hp, List.length_cons, List.length_cons,
      ih _ (fun v hv => h v (List.mem_cons_of_mem u hv))]

theorem snapshots_get (us : List Update) :
    ∀ init : JSRecord, (∀ u ∈ us, neverThrows u) →
      ∀ n, n < us.length →
        (snapshotsFrom init us).get? n
          = some (stateAfter init (us.take (n + 1))) := by
  induction us with
  | nil => intro init h n hn; exact absurd hn (by simp)
  | cons u us ih =>
    intro init h n hn
    rcases resolve_eq_some_of_neverThrows (h u (List.mem_cons_self u us)) init
      with ⟨p, hp⟩
    rw [snapshotsFrom_cons_some hp]
    cases n with
    | zero =>
      rw [List.get?_cons_zero, List.take_succ_cons, List.take_zero]
      rw [show stateAfter init [u] = stepState init u from rfl, stepState_some hp]
    | succ n =>
      rw [List.get?_cons_succ, List.take_succ_cons, stateAfter_cons,
        stepState_some hp,
        ih _ (fun v hv => h v (List.mem_cons_of_mem u hv)) n
          (Nat.lt_of_succ_lt_succ hn)]

/-! Claim theorems. -/

/-- Claim C1, counterexample: a subscriber that attaches to the full
snapshot sequence (`getState` with no arguments) before any update has been
submitted does not receive the initial state.  With no updates it receives
nothing at all, and with an update `{v: 1}` pending its first emission is
the merged snapshot `{v: 1}`, never the initial `{v: 0}` — exactly what the
source's own note documents (`If you want to emit the initial state after
setup just call: setState(state => state)`). -/
theorem c1_initial_state_not_replayed :
    observeFull cV0 [] 0 = [] ∧
    observeFull cV0 cUsV1 0 = [[("v", JSVal.vnum 1)]] ∧
    (observeFull cV0 cUsV1 0).head? ≠ some cV0 := by
  refine ⟨rfl, rfl, ?_⟩
  intro h
  have h2 : some [("v", JSVal.vnum 1)] = some cV0 := h
  simp [cV0] at h2

/-- Claim C1, amended: every late subscriber's emission sequence is the
suffix of the global snapshot sequence beginning at the most recently
published snapshot — the whole sequence when nothing has been published yet,
so a subscriber attaching before any update receives no immediate emission
(the initial state is never replayed), and in every case receives each
subsequent snapshot in publication order. -/
theorem c1_late_subscriber_suffix (init : JSRecord) (us : List Update) (k : Nat) :
    observeFull init us k
      = (snapshotsFrom init us).drop
          ((snapshotsFrom init (us.take k)).length - 1) := by
  have hsplit : snapshotsFrom init us
      = snapshotsFrom init (us.take k)
        ++ snapshotsFrom (stateAfter init (us.take k)) (us.drop k) := by
    conv_lhs => rw [← List.take_append_drop k us]
    exact snapshotsFrom_append _ _ _
  rw [hsplit, drop_pred_length_append]
  rfl

/-- Claim C2: for every sequence of non-throwing updates submitted in
order, each `setState` call publishes exactly one snapshot (even when the
update is a logical no-op), the `n`-th published snapshot is the left fold
of the merge step over the first `n + 1` updates starting from the initial
state, and a function update at position `n` is applied to the state
resulting from all previously submitted updates, its returned partial being
shallow-merged into that state. -/
theorem c2_fold_correctness (init : JSRecord) (us : List Update)
    (h : ∀ u ∈ us, neverThrows u) :
    (snapshotsFrom init us).length = us.length ∧
    (∀ n, n < us.length →
      (snapshotsFrom init us).get? n
        = some (stateAfter init (us.take (n + 1)))) ∧
    (∀ n f, us.get? n = some (Update.fn f) →
      ∃ p, f (stateAfter init (us.take n)) = some p ∧
        (snapshotsFrom init us).get? n
          = some (shallowMerge (stateAfter init (us.take n)) p)) := by
  refine ⟨snapshots_length us init h, snapshots_get us init h, ?_⟩
  intro n f hf
  have hnt : neverThrows (Update.fn f) := h _ (List.get?_mem hf)
  have hlt : n < us.length := by
    rcases List.get?_eq_some.mp hf with ⟨hl, _⟩
    exact hl
  rcases Option.isSome_iff_exists.mp (hnt (stateAfter init (us.take n)))
    with ⟨p, hp⟩
  refine ⟨p, hp, ?_⟩
  have htake : us.take (n + 1) = us.take n ++ [Update.fn f] := by
    rw [List.take_succ, ← List.get?_eq_getElem?, hf]
    rfl
  have hsplit : stateAfter init (us.take n ++ [Update.fn f])
      = stepState (stateAfter init (us.take n)) (Update.fn f) := by
    show List.foldl stepState init (us.take n ++ [Update.fn f]) = _
    rw [List.foldl_append]
    rfl
  have hstep : stepState (stateAfter init (us.take n)) (Update.fn f)
      = shallowMerge (stateAfter init (us.take n)) p := by
    apply stepState_some
    simp [resolve, isFunction, hp]
  rw [snapshots_get us init h n hlt, htake, hsplit, hstep]

/-- Witness for C2: with initial `{v: 0}` and updates `[{v: 1}, s => {v:
s.v + 1}]`, two snapshots are published and the second equals the fold of
the merge step over both updates. -/
theorem c2_fold_correctness_witness :
    (snapshotsFrom cV0 cUsFold).length = cUsFold.length ∧
    (snapshotsFrom cV0 cUsFold).get? 1
      = some (stateAfter cV0 (cUsFold.take 2)) := by
  have h : ∀ u ∈ cUsFold, neverThrows u := by
    intro u hu
    rcases List.mem_cons.mp hu with h1 | h2
    · subst h1
      exact (by decide :
        isFunction (Update.part [("v", JSVal.vnum 1)]) = false)
    · rw [List.mem_singleton.mp h2]
      intro s
      rfl
  exact ⟨(c2_fold_correctness cV0 cUsFold h).1,
    (c2_fold_correctness cV0 cUsFold h).2.1 1 (by decide)⟩

/-- Claim C5: a throwing function update propagates the error out of
`setState`, publishes no snapshot, leaves the prior state current, and
later updates keep being processed normally (the published sequence of the
whole run is that of the run with the throwing call removed). -/
theorem c5_throwing_update_policy (init : JSRecord) (pre post : List Update)
    (bad : Update) (h : resolve bad (stateAfter init pre) = none) :
    setStateThrows (stateAfter init pre) bad = true ∧
    snapshotsFrom init (pre ++ bad :: post)
      = snapshotsFrom init pre
        ++ snapshotsFrom (stateAfter init pre) post ∧
    stateAfter init (pre ++ [bad]) = stateAfter init pre := by
  refine ⟨?_, ?_, ?_⟩
  · simp [setStateThrows, h]
  · rw [snapshotsFrom_append, snapshotsFrom_cons_none h]
  · show List.foldl stepState init (pre ++ [bad]) = _
    rw [List.foldl_append]
    show stepState (stateAfter init pre) bad = _
    exact stepState_none h

/-- Witness for C5: after `{v: 1}`, a throwing function update raises out
of `setState`, publishes nothing and leaves `{v: 1}` current, and a later
`{v: 2}` is still processed. -/
theorem c5_throwing_update_policy_witness :
    setStateThrows (stateAfter cV0 cUsV1) cThrow = true ∧
    snapshotsFrom cV0 (cUsV1 ++ cThrow :: [Update.part [("v", JSVal.vnum 2)]])
      = snapshotsFrom cV0 cUsV1
        ++ snapshotsFrom (stateAfter cV0 cUsV1)
            [Update.part [("v", JSVal.vnum 2)]] ∧
    stateAfter cV0 (cUsV1 ++ [cThrow]) = stateAfter cV0 cUsV1 :=
  c5_throwing_update_policy cV0 cUsV1 [Update.part [("v", JSVal.vnum 2)]]
    cThrow rfl

/-- Claim C6: with initial state `{a: {x: 1}, b: 2}`, submitting the
partial `{a: {y: 2}}` publishes exactly `{a: {y: 2}, b: 2}` — the `a`
field now holds the patch's object (the nested `x` is lost, no deep merge),
`b` is retained — and in general a field of the merged state reads from the
partial when the partial mentions it and from the prior state otherwise. -/
theorem c6_shallow_merge_semantics :
    snapshotsFrom cMergeInit [Update.part cMergePatch] = [cMergeOut] ∧
    getField cMergeOut "a" = some (JSVal.vobj 2 [("y", JSVal.vnum 2)]) ∧
    getField cMergeOut "b" = some (JSVal.vnum 2) ∧
    (∀ s p k, getField (shallowMerge s p) k
      = match getField p k with
        | some v => some v
        | none => getField s k) :=
  ⟨rfl, rfl, rfl, getField_shallowMerge⟩

theorem mem_snapshotsFrom_take {r s : JSRecord} {l : List Update} {m : Nat}
    (h : r ∈ snapshotsFrom s (l.take m)) : r ∈ snapshotsFrom s l := by
  have hsplit := snapshotsFrom_append (l.take m) (l.drop m) s
  rw [List.take_append_drop] at hsplit
  rw [hsplit]
  exact List.mem_append.mpr (Or.inl h)

/-- Every snapshot a path-view chain ever receives — the replayed one and
the live ones — is one of the globally published snapshots. -/
theorem mem_of_mem_chainIn {r init : JSRecord} {us : List Update}
    {kc j : Nat} (h : r ∈ chainIn init us kc j) :
    r ∈ snapshotsFrom init us := by
  rcases List.mem_append.mp h with h1 | h2
  · have hl : (snapshotsFrom init (us.take kc)).getLast? = some r := by
      rcases hx : (snapshotsFrom init (us.take kc)).getLast? with _ | x
      · rw [replayAt, hx] at h1
        exact absurd h1 (by simp)
      · rw [replayAt, hx] at h1
        rw [List.mem_singleton.mp h1]
    rcases List.getLast?_eq_some_iff.mp hl with ⟨ys, hys⟩
    apply mem_snapshotsFrom_take (m := kc)
    rw [hys]
    exact List.mem_append.mpr (Or.inr (List.mem_singleton.mpr rfl))
  · rw [snapsBetween, List.drop_take] at h2
    have h3 : r ∈ snapshotsFrom (stateAfter init (us.take kc)) (us.drop kc) :=
      mem_snapshotsFrom_take h2
    have hsplit : snapshotsFrom init us
        = snapshotsFrom init (us.take kc)
          ++ snapshotsFrom (stateAfter init (us.take kc)) (us.drop kc) := by
      conv_lhs => rw [← List.take_append_drop kc us]
      exact snapshotsFrom_append _ _ _
    rw [hsplit]
    exact List.mem_append.mpr (Or.inr h3)

/-- Claim C3 is contradicted by the code, against the source's own doc
comment (`All getState('someKey') calls are automatically memoized, cached,
multicasted`): `getState` builds a fresh
pluck/distinctUntilChanged/filter/shareReplay chain on every call, with no
per-path cache, and two requests for the same path are observably
inequivalent.  With initial `{a: 1}` and updates `{a: 5}` then `{a: null}`,
a subscriber attaching now to the view created before the updates receives
the view's replayed `5`, while a second `getState('a')` call made now
yields a view that emits nothing: its chain starts from the replayed
snapshot `{a: null}`, which the absence filter suppresses. -/
theorem c3_getState_calls_not_shared :
    subscribeView cA1 cUsA5N ["a"] 0 2 = [JSVal.vnum 5] ∧
    subscribeView cA1 cUsA5N ["a"] 2 2 = [] :=
  ⟨rfl, rfl⟩

/-- Claim C4, counterexample: `distinctUntilChanged` sits before the
absence filter, so its comparison key is the previous candidate, not the
previous value emitted to observers.  With initial `{a: 1}` and updates
`{a: 5}`, `{a: null}`, `{a: 5}`, the view of path `a` emits `5` twice —
the second `5` is `===`-equal to the previously emitted value, which the
claim says must suppress it — while the claim's own suppression rule would
emit `5` once. -/
theorem c4_distinct_before_filter_cex :
    subscribeView cA1 cUsA5N5 ["a"] 0 0 = [JSVal.vnum 5, JSVal.vnum 5] ∧
    jsEq (JSVal.vnum 5) (JSVal.vnum 5) = true ∧
    claimC4Emit [JSVal.vnum 5, JSVal.vnull, JSVal.vnum 5] = [JSVal.vnum 5] ∧
    pathPipeline [JSVal.vnum 5, JSVal.vnull, JSVal.vnum 5]
      ≠ claimC4Emit [JSVal.vnum 5, JSVal.vnull, JSVal.vnum 5] := by
  refine ⟨rfl, rfl, rfl, ?_⟩
  intro h
  have h2 : ([JSVal.vnum 5, JSVal.vnum 5] : List JSVal) = [JSVal.vnum 5] := h
  simp at h2

/-- Claim C4, amended: a candidate is suppressed by the distinct-change
stage exactly when it is `===`-equal to the immediately preceding candidate
(the value extracted from the previous snapshot), whether or not that
predecessor was itself removed by the absence filter afterwards; the very
first candidate always passes the distinct-change stage. -/
theorem c4_distinct_stage_adjacent :
    (∀ cs, pathPipeline cs = (adjDedup cs).filter passesAbsence) ∧
    (∀ c cs, (distinctUntil (c :: cs)).head? = some c) := by
  constructor
  · intro cs
    unfold pathPipeline
    rw [distinctUntil_eq_adjDedup]
  · intro c cs
    rfl

/-- Claim C7: `getState()` with an empty path returns the reducer's full
snapshot sequence unmodified — the emissions are exactly those of the
full-state observable, with no deduplication and no null/undefined filter,
so two consecutive structurally-equal snapshots both still emit (while the
same scenario observed through the non-empty path `a` is deduplicated down
to a single emission). -/
theorem c7_empty_path_passthrough :
    (∀ (init : JSRecord) (us : List Update) (kc ks : Nat),
      getState init us [] kc ks = (observeFull init us ks).map asStateValue) ∧
    getState cA1 cUsNoop [] 0 0
      = [asStateValue [("a", JSVal.vnum 1)],
          asStateValue [("a", JSVal.vnum 1)]] ∧
    getState cA1 cUsNoop ["a"] 0 0 = [JSVal.vnum 1] := by
  refine ⟨?_, rfl, rfl⟩
  intro init us kc ks
  rfl

/-- Every value forwarded by the non-empty-path pipeline has survived its
final `filter` stage. -/
theorem passes_of_mem_pathPipeline {v : JSVal} {cs : List JSVal}
    (h : v ∈ pathPipeline cs) : passesAbsence v = true := by
  unfold pathPipeline at h
  exact (List.mem_filter.mp h).2

/-- Every value a non-empty-path view ever delivers to a subscriber — the
replayed one included — came out of the view chain's own pipeline. -/
theorem passes_of_mem_subscribeView {v : JSVal} {init : JSRecord}
    {us : List Update} {path : List String} {kc ks : Nat}
    (h : v ∈ subscribeView init us path kc ks) : passesAbsence v = true := by
  unfold subscribeView at h
  rcases List.mem_append.mp h with h1 | h2
  · rcases hx : (chainOut init us path kc ks).getLast? with _ | x
    · rw [hx] at h1
      exact absurd h1 (by simp)
    · rw [hx] at h1
      rw [List.mem_singleton.mp h1]
      rcases List.getLast?_eq_some_iff.mp hx with ⟨ys, hys⟩
      have hmem : x ∈ chainOut init us path kc ks := by
        rw [hys]
        exact List.mem_append.mpr (Or.inr (List.mem_singleton.mpr rfl))
      exact passes_of_mem_pathPipeline hmem
  · exact passes_of_mem_pathPipeline (List.mem_of_mem_drop h2)

/-- Claim C8: for every non-empty path, null and undefined values are never
delivered to observers of that path — every value any subscriber ever
receives from a path view, for any update history and any chain-creation
and subscription instants, is neither null nor undefined — and, in
particular, if every published snapshot holds null or undefined at the
path (a path never populated by the updates), the view never emits at all
and the `getState` call surfaces no error, only a silent never-emitting
sequence. -/
theorem c8_absence_suppression :
    (∀ (init : JSRecord) (us : List Update) (path : List String)
      (kc ks : Nat), ∀ v ∈ subscribeView init us path kc ks,
        v ≠ JSVal.vnull ∧ v ≠ JSVal.vundefined) ∧
    (∀ (init : JSRecord) (us : List Update) (path : List String)
      (kc ks : Nat), path ≠ [] →
      (∀ r ∈ snapshotsFrom init us,
        passesAbsence (pluckRecord r path) = false) →
      subscribeView init us path kc ks = [] ∧
      getState init us path kc ks = []) := by
  constructor
  · intro init us path kc ks v hv
    have hp := passes_of_mem_subscribeView hv
    refine ⟨?_, ?_⟩ <;> intro hEq <;> rw [hEq] at hp <;>
      simp [passesAbsence] at hp
  · intro init us path kc ks hpath habs
    have hout : ∀ j, chainOut init us path kc j = [] := by
      intro j
      unfold chainOut
      apply pathPipeline_eq_nil
      intro c hc
      rcases List.mem_map.mp hc with ⟨r, hr, hcr⟩
      rw [← hcr]
      exact habs r (mem_of_mem_chainIn hr)
    have hsub : subscribeView init us path kc ks = [] := by
      unfold subscribeView
      rw [hout ks, hout us.length]
      rfl
    refine ⟨hsub, ?_⟩
    have hc : (path.length != 0) = true := by
      cases path with
      | nil => exact absurd rfl hpath
      | cons a l => simp
    unfold getState
    rw [if_pos hc]
    exact hsub

/-- Witness for C8: the value `0` delivered through the path `a` amid a
mixed history is neither null nor undefined, and with initial `{a: 1}` and
one update `{a: 2}` the never-populated path `["missing", "path"]` emits
nothing. -/
theorem c8_absence_suppression_witness :
    (JSVal.vnum 0 ≠ JSVal.vnull ∧ JSVal.vnum 0 ≠ JSVal.vundefined) ∧
    subscribeView cA1 [Update.part [("a", JSVal.vnum 2)]]
      ["missing", "path"] 0 0 = [] ∧
    getState cA1 [Update.part [("a", JSVal.vnum 2)]]
      ["missing", "path"] 0 0 = [] := by
  refine ⟨?_, ?_, ?_⟩
  · exact c8_absence_suppression.1 cA1
      [Update.part [("a", JSVal.vnum 0)]] ["a"] 0 0 (JSVal.vnum 0)
      (List.mem_singleton.mpr rfl)
  · exact (c8_absence_suppression.2 cA1 [Update.part [("a", JSVal.vnum 2)]]
      ["missing", "path"] 0 0 (List.cons_ne_nil _ _) (by decide)).1
  · exact (c8_absence_suppression.2 cA1 [Update.part [("a", JSVal.vnum 2)]]
      ["missing", "path"] 0 0 (List.cons_ne_nil _ _) (by decide)).2

/-- Claim C9, counterexample: the duck-typed check classifies the
well-typed partial `{apply: 1}` as a function update, so `setState`
attempts to call it and throws. -/
theorem c9_apply_field_misclassified :
    setStateThrows [] (Update.part [("apply", JSVal.vnum 1)]) = true ∧
    isFunction (Update.part [("apply", JSVal.vnum 1)]) = true :=
  ⟨rfl, rfl⟩

/-- Claim C9, amended: `setState` never throws for a function update whose
invocation returns, nor for a partial update that the duck-typed `apply`
check does not misclassify as a function; the only failure modes are a
throwing update function and a partial carrying a truthy `apply` field. -/
theorem c9_setState_no_throw (s : JSRecord) (u : Update)
    (hf : ∀ f, u = Update.fn f → (f s).isSome)
    (hp : ∀ p, u = Update.part p → isFunction (Update.part p) = false) :
    setStateThrows s u = false := by
  cases u with
  | part p =>
    have h2 := hp p rfl
    simp [setStateThrows, resolve, h2]
  | fn f =>
    rcases Option.isSome_iff_exists.mp (hf f rfl) with ⟨q, hq⟩
    simp [setStateThrows, resolve, isFunction, hq]

/-- Witness for C9: `setState({a: 1})` does not throw. -/
theorem c9_setState_no_throw_witness :
    setStateThrows [] (Update.part [("a", JSVal.vnum 1)]) = false :=
  c9_setState_no_throw [] (Update.part [("a", JSVal.vnum 1)])
    (fun f hf => Update.noConfusion hf)
    (fun p hp => by
      injection hp with h
      subst h
      decide)

/-- Claim C10: the absence filter suppresses exactly null and undefined —
a present value that is falsy but neither of those, such as `0`, the empty
string or `false`, passes the filter and is delivered to observers. -/
theorem c10_absence_filter_exact :
    (∀ v, passesAbsence v = true ↔ (v ≠ JSVal.vnull ∧ v ≠ JSVal.vundefined)) ∧
    subscribeView cA1 [Update.part [("a", JSVal.vnum 0)]] ["a"] 0 0
      = [JSVal.vnum 0] ∧
    pathPipeline [JSVal.vstr ""] = [JSVal.vstr ""] ∧
    pathPipeline [JSVal.vbool false] = [JSVal.vbool false] := by
  refine ⟨?_, rfl, rfl, rfl⟩
  intro v
  cases v <;> simp [passesAbsence]

end RxState
